import Mathlib

/-!
Verification development for the hybrid retrieval subsystem of the
Automation-Generator repository (`utils/MongoDBFunctions.py` and
`utils/embedding_service.py`).

The Python code is shallowly embedded: dictionaries become structures with
explicit default values (mirroring `dict.get(key, default)`), Python floats
become rationals (all arithmetic relevant to the verified properties is
exact), exceptions become `Except`, and the external MongoDB / Gemini calls
become oracle functions supplied as parameters.  Every invocation of an
external store or embedding operation is additionally recorded in an
operation log so that "no store operation is performed" is provable.
-/

namespace AutoGen

/-! ## Python string primitives

`str.lower`, `str.count`, the `in` operator, `str.split()` and the
whitespace handling of `re.sub(r"\s+", " ", ...)`, modelled on `List Char`.
-/

/-- Python whitespace characters (`\s` over ASCII). -/
def isSpacePy (c : Char) : Bool :=
  c = ' ' || c = '\t' || c = '\n' || c = '\r' || c = '\x0b' || c = '\x0c'

/-- Lower-casing a string, as Python `str.lower` on ASCII text. -/
def lowerStr (s : String) : String := String.mk (s.toList.map Char.toLower)

/-- Fuelled scanner for `str.count`: counts non-overlapping occurrences of
`pat` scanning left to right, skipping a full pattern length after a match.
The fuel is the length of the scanned list, which bounds the recursion. -/
def countOccAux (pat : List Char) : Nat → List Char → Nat
  | 0, _ => 0
  | _, [] => 0
  | fuel + 1, c :: rest =>
    if pat.isPrefixOf (c :: rest) then
      1 + countOccAux pat fuel (rest.drop (pat.length - 1))
    else
      countOccAux pat fuel rest

/-- Python `s.count(pat)` on character lists (for the empty pattern Python
returns `len(s) + 1`). -/
def countOccL (pat s : List Char) : Nat :=
  if pat = [] then s.length + 1 else countOccAux pat s.length s

/-- Python `s.count(pat)` on strings. -/
def countOccS (pat s : String) : Nat := countOccL pat.toList s.toList

/-- Python `pat in s` (substring containment); for non-empty patterns this
is equivalent to `s.count(pat) > 0`, and the empty pattern is contained in
every string. -/
def containsPy (s pat : String) : Bool := countOccS pat s ≠ 0

/-- Accumulator-based splitter behind `str.split()`. -/
def splitWsGo : List Char → List Char → List (List Char)
  | acc, [] => if acc = [] then [] else [acc.reverse]
  | acc, c :: rest =>
    if isSpacePy c then
      if acc = [] then splitWsGo [] rest else acc.reverse :: splitWsGo [] rest
    else
      splitWsGo (c :: acc) rest

/-- Python `s.split()`: splits on runs of whitespace, dropping empties. -/
def pyWords (s : String) : List String :=
  (splitWsGo [] s.toList).map (fun cs => String.mk cs)

/-- `re.sub(r"\s+", " ", s)`: every maximal run of whitespace becomes one
single space character. -/
def collapseWs : List Char → List Char
  | [] => []
  | c :: rest =>
    if isSpacePy c then
      match rest with
      | c2 :: _ => if isSpacePy c2 then collapseWs rest else ' ' :: collapseWs rest
      | [] => ' ' :: collapseWs rest
    else
      c :: collapseWs rest

/-- Python `str.strip()` on ASCII text: drop whitespace from both ends. -/
def pyStrip (s : String) : String :=
  String.mk (((s.toList.dropWhile isSpacePy).reverse.dropWhile isSpacePy).reverse)

/-- Python slicing `s[:n]` (by characters). -/
def pyTake (n : ℕ) (s : String) : String := String.mk (s.toList.take n)

/-! ## Python `round(x, 2)`

Python rounds to the nearest representable value, breaking ties to the even
integer (banker's rounding).  All values produced by the relevance scorer
are exact multiples of 1/4, for which this rounding at two decimals is the
identity; nevertheless the rounding function is modelled faithfully. -/

/-- Round a rational to the nearest integer, ties to even. -/
def pyRoundInt (q : ℚ) : ℤ :=
  if q - ⌊q⌋ = 1 / 2 then (if Even ⌊q⌋ then ⌊q⌋ else ⌊q⌋ + 1) else round q

/-- Python `round(q, 2)`. -/
def pyRound2 (q : ℚ) : ℚ := (pyRoundInt (q * 100) : ℚ) / 100

theorem pyRoundInt_bounds (q : ℚ) :
    q - 1 / 2 ≤ (pyRoundInt q : ℚ) ∧ (pyRoundInt q : ℚ) ≤ q + 1 / 2 := by
  unfold pyRoundInt
  by_cases h : q - ⌊q⌋ = 1 / 2
  · have hq : q = (⌊q⌋ : ℚ) + 1 / 2 := by linarith
    by_cases he : Even ⌊q⌋
    · simp only [h, if_true, he]
      constructor <;> linarith
    · simp only [h, if_true, he, if_false]
      push_cast
      constructor <;> linarith
  · have hr : round q = ⌊q + 1 / 2⌋ := round_eq q
    have h1 : ((⌊q + 1 / 2⌋ : ℤ) : ℚ) ≤ q + 1 / 2 := Int.floor_le _
    have h2 : q + 1 / 2 < (⌊q + 1 / 2⌋ : ℚ) + 1 := Int.lt_floor_add_one _
    simp only [h, if_false, hr]
    constructor <;> linarith

theorem pyRoundInt_mono {a b : ℚ} (hab : a ≤ b) : pyRoundInt a ≤ pyRoundInt b := by
  by_contra hcon
  push_neg at hcon
  have hstep : pyRoundInt b + 1 ≤ pyRoundInt a := by omega
  have ha := pyRoundInt_bounds a
  have hb := pyRoundInt_bounds b
  have hcast : (pyRoundInt b : ℚ) + 1 ≤ (pyRoundInt a : ℚ) := by exact_mod_cast hstep
  have hba : b ≤ a := by linarith
  have hEq : a = b := le_antisymm hab hba
  rw [hEq] at hcon
  omega

theorem pyRound2_mono {a b : ℚ} (hab : a ≤ b) : pyRound2 a ≤ pyRound2 b := by
  unfold pyRound2
  have h : pyRoundInt (a * 100) ≤ pyRoundInt (b * 100) :=
    pyRoundInt_mono (by linarith)
  have h' : (pyRoundInt (a * 100) : ℚ) ≤ (pyRoundInt (b * 100) : ℚ) := by
    exact_mod_cast h
  linarith

/-! ## Stable sorting

Python's `list.sort(key=..., reverse=True)` is a stable descending sort.
Stable sorting is modelled by insertion sort with a "stays-before"
comparator: an element is inserted after every already-placed element that
the comparator keeps before it, which reproduces the unique stable order. -/

/-- Insert `x` after every element `y` with `before y x`. -/
def insertBy (before : α → α → Bool) (x : α) : List α → List α
  | [] => [x]
  | y :: ys => if before y x then y :: insertBy before x ys else x :: y :: ys

/-- Stable sort by the comparator `before` (left-to-right insertion). -/
def stableSortBy (before : α → α → Bool) (l : List α) : List α :=
  l.foldl (fun acc x => insertBy before x acc) []

theorem insertBy_perm (before : α → α → Bool) (x : α) (l : List α) :
    List.Perm (insertBy before x l) (x :: l) := by
  induction l with
  | nil => simp [insertBy]
  | cons y ys ih =>
    by_cases h : before y x
    · simp only [insertBy, h, if_true]
      exact (ih.cons y).trans (List.Perm.swap x y ys)
    · simp [insertBy, h]

theorem stableSortBy_perm (before : α → α → Bool) (l : List α) :
    List.Perm (stableSortBy before l) l := by
  suffices h : ∀ (l acc : List α),
      List.Perm (l.foldl (fun acc x => insertBy before x acc) acc) (acc ++ l) by
    simpa using h l []
  intro l
  induction l with
  | nil => intro acc; simp
  | cons x xs ih =>
    intro acc
    have h1 := ih (insertBy before x acc)
    have h2 : List.Perm (insertBy before x acc ++ xs) ((x :: acc) ++ xs) :=
      (insertBy_perm before x acc).append_right xs
    have h3 : List.Perm ((x :: acc) ++ xs) (acc ++ x :: xs) := by
      simpa using (List.perm_middle (a := x)).symm
    exact (h1.trans h2).trans h3

theorem mem_insertBy {before : α → α → Bool} {x a : α} {l : List α} :
    a ∈ insertBy before x l ↔ a = x ∨ a ∈ l := by
  have h := (insertBy_perm before x l).mem_iff (a := a)
  simpa using h

theorem mem_stableSortBy {before : α → α → Bool} {a : α} {l : List α} :
    a ∈ stableSortBy before l ↔ a ∈ l :=
  (stableSortBy_perm before l).mem_iff

/-- Descending stable sort by a rational-valued key: the comparator keeps
`a` before `b` whenever `key b ≤ key a`, which is exactly Python's stable
`sort(key=..., reverse=True)`. -/
def sortDescBy (key : α → ℚ) (l : List α) : List α :=
  stableSortBy (fun a b => decide (key b ≤ key a)) l

theorem insertDesc_pairwise {key : α → ℚ} {x : α} {l : List α}
    (hl : l.Pairwise (fun a b => key b ≤ key a)) :
    (insertBy (fun a b => decide (key b ≤ key a)) x l).Pairwise
      (fun a b => key b ≤ key a) := by
  induction l with
  | nil => simp [insertBy]
  | cons y ys ih =>
    rcases List.pairwise_cons.mp hl with ⟨hy, hys⟩
    by_cases h : key x ≤ key y
    · have hd : decide (key x ≤ key y) = true := decide_eq_true h
      simp only [insertBy, hd, if_true]
      refine List.pairwise_cons.mpr ⟨?_, ih hys⟩
      intro z hz
      rcases mem_insertBy.mp hz with rfl | hz'
      · exact h
      · exact hy z hz'
    · have hd : decide (key x ≤ key y) = false := decide_eq_false h
      simp only [insertBy, hd, if_false]
      refine List.pairwise_cons.mpr ⟨?_, hl⟩
      intro z hz
      rcases List.mem_cons.mp hz with rfl | hz'
      · exact le_of_not_le h
      · exact le_trans (hy z hz') (le_of_not_le h)

theorem sortDescBy_pairwise (key : α → ℚ) (l : List α) :
    (sortDescBy key l).Pairwise (fun a b => key b ≤ key a) := by
  unfold sortDescBy stableSortBy
  suffices h : ∀ (l acc : List α),
      acc.Pairwise (fun a b => key b ≤ key a) →
      (l.foldl (fun acc x => insertBy (fun a b => decide (key b ≤ key a)) x acc)
        acc).Pairwise (fun a b => key b ≤ key a) by
    exact h l [] (by simp)
  intro l
  induction l with
  | nil => intro acc hacc; simpa using hacc
  | cons x xs ih =>
    intro acc hacc
    exact ih _ (insertDesc_pairwise hacc)

theorem mem_sortDescBy {key : α → ℚ} {a : α} {l : List α} :
    a ∈ sortDescBy key l ↔ a ∈ l := mem_stableSortBy

theorem sortDescBy_length (key : α → ℚ) (l : List α) :
    (sortDescBy key l).length = l.length :=
  (stableSortBy_perm _ l).length_eq

/-! ## Data model

A search result is a MongoDB document.  In the Python code results are
plain dictionaries accessed with `dict.get(key, default)`; this is embedded
as a structure whose annotation fields carry the `get` defaults.  Floats
are modelled as rationals. -/

/-- Rating aggregate returned by `_get_solution_ratings`. -/
structure RatingAgg where
  average : ℚ := 0
  count : ℕ := 0
deriving DecidableEq, Repr

/-- A solution document as it flows through the search pipeline of
`MongoDBFunctions.py`.  `rid` is `str(result.get('_id', ''))`; the score
and source annotations are the transient request-scoped fields, with the
defaults used by the code's `get` calls. -/
structure Rec where
  rid : String := ""
  domain : String := ""
  summary : String := ""
  script : String := ""
  extraInfo : String := ""
  prereqs : String := ""
  unitTests : String := ""
  status : String := ""
  timestamp : Option ℤ := none
  vectorScore : ℚ := 0
  score : ℚ := 0
  combinedScore : ℚ := 0
  searchSources : List String := []
  searchType : String := ""
  ratings : RatingAgg := {}
deriving DecidableEq, Repr

/-! ## Relevance scorer (`_calculate_relevance_score`)

The field-weight table and the scoring loop from lines 404-442 of
`MongoDBFunctions.py`. -/

/-- The weighted fields of `fields_weights`, in the dictionary's insertion
order. -/
inductive SField where
  | domain | summary | extraInfo | prereqs | script
deriving DecidableEq, Repr

/-- Field access `result.get(field, '')`. -/
def fieldGet : SField → Rec → String
  | .domain, r => r.domain
  | .summary, r => r.summary
  | .extraInfo, r => r.extraInfo
  | .prereqs, r => r.prereqs
  | .script, r => r.script

/-- The weight table `fields_weights`. -/
def fieldWeight : SField → ℚ
  | .domain => 5
  | .summary => 3
  | .extraInfo => 2
  | .prereqs => 3 / 2
  | .script => 1

/-- Iteration order of `fields_weights.items()`. -/
def scoreFields : List SField :=
  [.domain, .summary, .extraInfo, .prereqs, .script]

/-- Occurrence count of a (lower-cased) pattern inside the lower-cased
content of one weighted field. -/
def fieldCount (r : Rec) (f : SField) (pat : String) : ℕ :=
  countOccS pat (lowerStr (fieldGet f r))

/-- Contribution of one weighted field: exact-phrase occurrences count
double weight, and every query word longer than two characters adds half
weight per occurrence. -/
def fieldScore (r : Rec) (queryLower : String) (queryWords : List String)
    (f : SField) : ℚ :=
  let fc := lowerStr (fieldGet f r)
  let phrase : ℚ :=
    if containsPy fc queryLower then (countOccS queryLower fc : ℚ) * fieldWeight f * 2 else 0
  let words : ℚ :=
    (queryWords.map (fun w =>
      if 2 < w.length then (countOccS w fc : ℚ) * fieldWeight f * (1 / 2) else 0)).sum
  phrase + words

/-- The recency bonus: documents younger than 30 days (when a timestamp is
present) gain a flat `1.0`.  `now` and the stored timestamp are measured in
days so that `days_old = now - t`. -/
def recencyBonus (now : ℤ) (r : Rec) : ℚ :=
  match r.timestamp with
  | some t => if now - t < 30 then 1 else 0
  | none => 0

/-- `_calculate_relevance_score(result, query)`: field-weighted lexical
score, rounded to two decimals. -/
def calcRelevanceScore (now : ℤ) (r : Rec) (query : String) : ℚ :=
  let queryLower := lowerStr query
  let queryWords := pyWords queryLower
  pyRound2 ((scoreFields.map (fieldScore r queryLower queryWords)).sum
    + recencyBonus now r)

/-! ## Merge of vector-origin and text-origin results
(`_merge_search_results`, lines 259-308) -/

/-- Python's two-argument `min` (ties keep the first argument). -/
def pyMin (a b : ℚ) : ℚ := if a ≤ b then a else b

/-- First pass: vector results are appended in order, keyed by id, with
`combined_score = min(vector_score * 10, 10.0)` and source tag `vector`. -/
def mergeVecPass : List Rec → List Rec → List String → List Rec × List String
  | [], merged, seen => (merged, seen)
  | r :: rest, merged, seen =>
    if r.rid ∈ seen then
      mergeVecPass rest merged seen
    else
      mergeVecPass rest
        (merged ++ [{ r with combinedScore := pyMin (r.vectorScore * 10) 10,
                             searchSources := ["vector"] }])
        (seen ++ [r.rid])

/-- Update the first element satisfying `p` (the Python loop with `break`). -/
def updateFirst (p : Rec → Bool) (f : Rec → Rec) : List Rec → List Rec
  | [] => []
  | x :: xs => if p x then f x :: xs else x :: updateFirst p f xs

/-- Second pass: text results are appended with `combined_score =
text_score * 0.8` when new, and otherwise boost the already-merged record
by `text_score * 0.3`, tagging it with the extra source. -/
def mergeTextPass : List Rec → List Rec → List String → List Rec × List String
  | [], merged, seen => (merged, seen)
  | r :: rest, merged, seen =>
    if r.rid ∈ seen then
      mergeTextPass rest
        (updateFirst (fun m => m.rid = r.rid)
          (fun m => { m with combinedScore := m.combinedScore + r.score * (3 / 10),
                             searchSources := m.searchSources ++ ["text"] }) merged)
        seen
    else
      mergeTextPass rest
        (merged ++ [{ r with combinedScore := r.score * (4 / 5),
                             searchSources := ["text"] }])
        (seen ++ [r.rid])

/-- Final annotation: more than one source means `hybrid`, else `vector`
or `text` according to the single source. -/
def tagSearchType (r : Rec) : Rec :=
  if 1 < r.searchSources.length then { r with searchType := "hybrid" }
  else if "vector" ∈ r.searchSources then { r with searchType := "vector" }
  else { r with searchType := "text" }

/-- `_merge_search_results(vector_results, text_results, query)`. -/
def mergeSearchResults (vectorResults textResults : List Rec) : List Rec :=
  let (m1, s1) := mergeVecPass vectorResults [] []
  let (m2, _) := mergeTextPass textResults m1 s1
  (sortDescBy (fun r => r.combinedScore) m2).map tagSearchType

/-! ## Claims C1 and C5: the merge step -/

/-- End-to-end scenario C input: vector search returned id1 with
`vector_score 0.9` and id2 with `vector_score 0.5`. -/
def scenCVector : List Rec :=
  [{ rid := "id1", vectorScore := 9 / 10 }, { rid := "id2", vectorScore := 1 / 2 }]

/-- End-to-end scenario C input: lexical search returned id2 with text
score `12.0` and id3 with text score `8.0`. -/
def scenCText : List Rec :=
  [{ rid := "id2", score := 12 }, { rid := "id3", score := 8 }]

/-- C1 (counterexample): on the scenario C inputs the merge step orders
id1 first (`combined = min(0.9*10, 10) = 9.0`), not id2 first as the claim
states: id2's boosted score is only `0.5*10 + 12*0.3 = 8.6 < 9.0`. -/
theorem c1_counterexample :
    (mergeSearchResults scenCVector scenCText).map Rec.rid ≠ ["id2", "id1", "id3"] ∧
    (mergeSearchResults scenCVector scenCText).map Rec.rid = ["id1", "id2", "id3"] := by
  constructor
  · norm_num +decide [scenCVector, scenCText, mergeSearchResults, mergeVecPass,
      mergeTextPass, updateFirst, sortDescBy, stableSortBy, insertBy, tagSearchType, pyMin]
  · norm_num +decide [scenCVector, scenCText, mergeSearchResults, mergeVecPass,
      mergeTextPass, updateFirst, sortDescBy, stableSortBy, insertBy, tagSearchType, pyMin]

/-- C1 (amended): on the scenario C inputs the merge step produces the
ordering id1 (9.0), id2 (boosted to 8.6), id3 (6.4), with id2 — found by
both strategies — annotated `search_type = "hybrid"` and the other two
annotated `"vector"` and `"text"` respectively. -/
theorem c1_merge_scenario_c :
    (mergeSearchResults scenCVector scenCText).map Rec.rid = ["id1", "id2", "id3"] ∧
    (mergeSearchResults scenCVector scenCText).map Rec.searchType
      = ["vector", "hybrid", "text"] ∧
    (mergeSearchResults scenCVector scenCText).map Rec.combinedScore
      = [9, 43 / 5, 32 / 5] := by
  refine ⟨?_, ?_, ?_⟩ <;>
    norm_num +decide [scenCVector, scenCText, mergeSearchResults, mergeVecPass,
      mergeTextPass, updateFirst, sortDescBy, stableSortBy, insertBy, tagSearchType, pyMin]

theorem mergeVecPass_nodup (l : List Rec) :
    ∀ (merged : List Rec) (seen : List String),
    (merged.map Rec.rid).Nodup → (∀ i ∈ merged.map Rec.rid, i ∈ seen) →
    ((mergeVecPass l merged seen).1.map Rec.rid).Nodup ∧
    (∀ i ∈ (mergeVecPass l merged seen).1.map Rec.rid, i ∈ (mergeVecPass l merged seen).2) := by
  induction l with
  | nil => intro merged seen h1 h2; exact ⟨by simpa [mergeVecPass] using h1,
      by simpa [mergeVecPass] using h2⟩
  | cons r rest ih =>
    intro merged seen h1 h2
    by_cases hmem : r.rid ∈ seen
    · simpa [mergeVecPass, hmem] using ih merged seen h1 h2
    · simp only [mergeVecPass, hmem, if_false]
      apply ih
      · rw [List.map_append]
        refine List.Nodup.append h1 (by simp) ?_
        intro i hi hi'
        simp only [List.map_cons, List.map_nil, List.mem_singleton] at hi'
        subst hi'
        exact hmem (h2 _ hi)
      · intro i hi
        rw [List.map_append] at hi
        rcases List.mem_append.mp hi with hi' | hi'
        · exact List.mem_append.mpr (Or.inl (h2 _ hi'))
        · simp only [List.map_cons, List.map_nil, List.mem_singleton] at hi'
          subst hi'
          simp

theorem updateFirst_map_rid (p : Rec → Bool) (f : Rec → Rec)
    (hf : ∀ r, (f r).rid = r.rid) (l : List Rec) :
    (updateFirst p f l).map Rec.rid = l.map Rec.rid := by
  induction l with
  | nil => rfl
  | cons x xs ih =>
    by_cases hp : p x
    · simp [updateFirst, hp, hf]
    · simp [updateFirst, hp, ih]

theorem mergeTextPass_nodup (l : List Rec) :
    ∀ (merged : List Rec) (seen : List String),
    (merged.map Rec.rid).Nodup → (∀ i ∈ merged.map Rec.rid, i ∈ seen) →
    ((mergeTextPass l merged seen).1.map Rec.rid).Nodup := by
  induction l with
  | nil => intro merged seen h1 _; simpa [mergeTextPass] using h1
  | cons r rest ih =>
    intro merged seen h1 h2
    by_cases hmem : r.rid ∈ seen
    · simp only [mergeTextPass, hmem, if_true]
      apply ih
      · rw [updateFirst_map_rid]
        exact h1
        intro m
        rfl
      · rw [updateFirst_map_rid]
        exact h2
        intro m
        rfl
    · simp only [mergeTextPass, hmem, if_false]
      apply ih
      · rw [List.map_append]
        refine List.Nodup.append h1 (by simp) ?_
        intro i hi hi'
        simp only [List.map_cons, List.map_nil, List.mem_singleton] at hi'
        subst hi'
        exact hmem (h2 _ hi)
      · intro i hi
        rw [List.map_append] at hi
        rcases List.mem_append.mp hi with hi' | hi'
        · exact List.mem_append.mpr (Or.inl (h2 _ hi'))
        · simp only [List.map_cons, List.map_nil, List.mem_singleton] at hi'
          subst hi'
          simp

/-- C5: the merged list produced by `_merge_search_results` never contains
two entries with the same id, for every pair of input result lists — the
de-duplication invariant of the hybrid merge. -/
theorem c5_merge_dedup (vectorResults textResults : List Rec) :
    ((mergeSearchResults vectorResults textResults).map Rec.rid).Nodup := by
  unfold mergeSearchResults
  have hvec := mergeVecPass_nodup vectorResults [] [] (by simp) (by simp)
  have htext := mergeTextPass_nodup textResults
    (mergeVecPass vectorResults [] []).1 (mergeVecPass vectorResults [] []).2
    hvec.1 hvec.2
  have hperm : List.Perm
      ((sortDescBy (fun r => r.combinedScore)
        (mergeTextPass textResults (mergeVecPass vectorResults [] []).1
          (mergeVecPass vectorResults [] []).2).1).map Rec.rid)
      (((mergeTextPass textResults (mergeVecPass vectorResults [] []).1
          (mergeVecPass vectorResults [] []).2).1).map Rec.rid) :=
    (stableSortBy_perm _ _).map Rec.rid
  have htag : ((sortDescBy (fun r => r.combinedScore)
      (mergeTextPass textResults (mergeVecPass vectorResults [] []).1
        (mergeVecPass vectorResults [] []).2).1).map tagSearchType).map Rec.rid
      = (sortDescBy (fun r => r.combinedScore)
        (mergeTextPass textResults (mergeVecPass vectorResults [] []).1
          (mergeVecPass vectorResults [] []).2).1).map Rec.rid := by
    rw [List.map_map]
    apply List.map_congr_left
    intro r _
    simp only [Function.comp_apply, tagSearchType]
    split <;> try rfl
    split <;> rfl
  simpa [htag] using (hperm.nodup_iff).mpr htext

/-! ## Claim C6: monotonicity of the lexical field-weighted score -/

theorem fieldWeight_nonneg (f : SField) : 0 ≤ fieldWeight f := by
  cases f <;> norm_num [fieldWeight]

/-- `fieldScore` expressed through the occurrence counts `fieldCount`. -/
theorem fieldScore_eq (r : Rec) (ql : String) (qws : List String) (f : SField) :
    fieldScore r ql qws f =
      (if fieldCount r f ql ≠ 0 then (fieldCount r f ql : ℚ) * fieldWeight f * 2 else 0)
      + (qws.map (fun w =>
          if 2 < w.length then (fieldCount r f w : ℚ) * fieldWeight f * (1 / 2) else 0)).sum := by
  unfold fieldScore containsPy fieldCount
  rcases eq_or_ne (countOccS ql (lowerStr (fieldGet f r))) 0 with h | h <;>
    simp [h]

/-- C6: the lexical field-weighted relevance score is monotonically
non-decreasing in the occurrence count of one query word `w0` (longer than
two characters) inside one weighted field `f0`, all else held equal: two
records with identical phrase counts, identical counts for every other
(field, query word) pair, and identical timestamps, where the second has
at least as many occurrences of `w0` in `f0`, compare accordingly. -/
theorem c6_relevance_monotone (now : ℤ) (q : String) (r1 r2 : Rec) (f0 : SField)
    (w0 : String)
    (hw : w0 ∈ pyWords (lowerStr q)) (hlen : 2 < w0.length)
    (hph : ∀ f, fieldCount r1 f (lowerStr q) = fieldCount r2 f (lowerStr q))
    (hother : ∀ f w, w ∈ pyWords (lowerStr q) → (f, w) ≠ (f0, w0) →
      fieldCount r1 f w = fieldCount r2 f w)
    (hcnt : fieldCount r1 f0 w0 ≤ fieldCount r2 f0 w0)
    (hts : r1.timestamp = r2.timestamp) :
    calcRelevanceScore now r1 q ≤ calcRelevanceScore now r2 q := by
  unfold calcRelevanceScore
  apply pyRound2_mono
  have hrec : recencyBonus now r1 = recencyBonus now r2 := by
    unfold recencyBonus
    rw [hts]
  rw [hrec]
  apply add_le_add_right
  apply List.sum_le_sum
  intro f _
  rw [fieldScore_eq, fieldScore_eq]
  apply add_le_add
  · rw [hph f]
  · apply List.sum_le_sum
    intro w hwmem
    by_cases hl : 2 < w.length
    · simp only [hl, if_true]
      by_cases hfw : (f, w) = (f0, w0)
      · have hf : f = f0 := congrArg Prod.fst hfw
        have hww : w = w0 := congrArg Prod.snd hfw
        subst hf
        subst hww
        have h1 : (fieldCount r1 f w : ℚ) ≤ (fieldCount r2 f w : ℚ) := by
          exact_mod_cast hcnt
        have h2 : (0 : ℚ) ≤ fieldWeight f * (1 / 2) := by
          have := fieldWeight_nonneg f
          linarith
        calc (fieldCount r1 f w : ℚ) * fieldWeight f * (1 / 2)
            = (fieldCount r1 f w : ℚ) * (fieldWeight f * (1 / 2)) := by ring
          _ ≤ (fieldCount r2 f w : ℚ) * (fieldWeight f * (1 / 2)) :=
              mul_le_mul_of_nonneg_right h1 h2
          _ = (fieldCount r2 f w : ℚ) * fieldWeight f * (1 / 2) := by ring
      · rw [hother f w hwmem hfw]
    · simp [hl]

/-- Witness record pair for C6: identical except for one extra occurrence
of the query word `xyz` in `summary`. -/
def c6RecLo : Rec := { summary := "xyz" }

/-- See `c6RecLo`. -/
def c6RecHi : Rec := { summary := "xyz xyz" }

/-- C6 witness: a concrete instance where the occurrence count of `"xyz"`
in `summary` rises from 1 to 2 while every other determinant is equal. -/
theorem c6_relevance_monotone_witness :
    calcRelevanceScore 0 c6RecLo "abcd xyz" ≤ calcRelevanceScore 0 c6RecHi "abcd xyz" := by
  apply c6_relevance_monotone 0 "abcd xyz" c6RecLo c6RecHi SField.summary "xyz"
  · decide
  · decide
  · intro f
    cases f <;> decide
  · intro f w hwmem hne
    have hws : pyWords (lowerStr "abcd xyz") = ["abcd", "xyz"] := by decide
    rw [hws] at hwmem
    rcases List.mem_cons.mp hwmem with rfl | hwmem'
    · cases f <;> decide
    · rcases List.mem_singleton.mp hwmem' with rfl
      cases f with
      | summary => exact absurd rfl hne
      | domain => decide
      | extraInfo => decide
      | prereqs => decide
      | script => decide
  · decide
  · rfl

/-! ## Claim C3: the regex/manual-scan fallback (`_regex_search`)

`_regex_search` passes the raw, unescaped query as the pattern of each
Mongo `{"$regex": query, "$options": "i"}` clause, so the per-field
matching itself is the store engine's case-insensitive regular-expression
evaluation — an external collaborator, modelled as an abstract match
predicate `rmatch pattern field`.  The structural behaviour of
`_regex_search` (which fields are searched, the absence of a status
clause, recency truncation before scoring, annotation) is proved for
every such predicate, hence in particular for the engine's.  An invalid
pattern makes the store find raise; that error path is carried by the
orchestrator model (`Store.regexFind`, claim C2) — the in-memory model
below is the successful-find path.  `.sort("timestamp", -1)` orders
newest first with absent timestamps last, and `.limit(n)` truncates
server-side before the relevance scores are computed. -/

/-- The `$or` filter of `_regex_search` over its five fields, in source
order (summary, domain, extra_info, script, prerequisites), each field
matched against the raw pattern by the store engine `rmatch`. -/
def matchesRegexFilter (rmatch : String → String → Bool) (query : String)
    (r : Rec) : Bool :=
  rmatch query r.summary || rmatch query r.domain ||
    rmatch query r.extraInfo || rmatch query r.script ||
    rmatch query r.prereqs

/-- `.sort("timestamp", -1)` comparator: `a` stays before `b` when its
timestamp is at least as recent (absent timestamps sort last). -/
def tsKeepsBefore (a b : Rec) : Bool :=
  match a.timestamp, b.timestamp with
  | some x, some y => y ≤ x
  | some _, none => true
  | none, some _ => false
  | none, none => true

/-- The raw store call inside `_regex_search` on the successful-find
path: `collection.find(search_filter).sort("timestamp", -1).limit(limit)`
with `$regex` clauses evaluated by `rmatch`. -/
def findRegexRaw (rmatch : String → String → Bool) (db : List Rec)
    (query : String) (lim : ℕ) : List Rec :=
  (stableSortBy tsKeepsBefore (db.filter (matchesRegexFilter rmatch query))).take lim

/-- Per-result annotation of `_regex_search`: `search_type`, the lexical
field-weighted score, and the ratings lookup. -/
def regexAnnotate (ratingsF : String → RatingAgg) (now : ℤ) (query : String)
    (r : Rec) : Rec :=
  { r with searchType := "regex",
           score := calcRelevanceScore now r query,
           ratings := ratingsF r.rid }

/-- The pure tail of `_regex_search` after the store returned `results`:
annotate every record, then stable-sort by score, highest first. -/
def regexSearchCore (ratingsF : String → RatingAgg) (now : ℤ) (query : String)
    (results : List Rec) : List Rec :=
  sortDescBy (fun r => r.score) (results.map (regexAnnotate ratingsF now query))

/-- `_regex_search(query, limit)` against an in-memory collection whose
engine evaluates `$regex` clauses with `rmatch`. -/
def regexSearchDB (rmatch : String → String → Bool)
    (ratingsF : String → RatingAgg) (now : ℤ) (db : List Rec)
    (query : String) (lim : ℕ) : List Rec :=
  regexSearchCore ratingsF now query (findRegexRaw rmatch db query lim)

/-- The store engine's evaluation of `{"$regex": pat, "$options": "i"}`
for a pattern containing no regex metacharacter: case-insensitive
substring containment.  Used only to instantiate concrete inputs whose
query (such as `"automation"`) is metacharacter-free, where this is the
engine's semantics. -/
def literalRegexMatch (pat field : String) : Bool :=
  containsPy (lowerStr field) (lowerStr pat)

/-- An inactive record that matches the query: `_regex_search` has no
status clause in its filter, so it is returned. -/
def c3InactiveDoc : Rec :=
  { rid := "r1", summary := "legacy automation workflow", status := "inactive",
    timestamp := some 0 }

/-- C3 (counterexample): the regex fallback does not scan only active
records — on a collection holding one matching record with
`status = "inactive"`, the result consists of that inactive record.  The
query `"automation"` has no regex metacharacter, so the engine's matching
at this input is `literalRegexMatch`. -/
theorem c3_counterexample :
    (regexSearchDB literalRegexMatch (fun _ => {}) 1000 [c3InactiveDoc]
        "automation" 10).map Rec.status
      = ["inactive"] ∧ "inactive" ≠ "active" := by
  constructor
  · decide
  · decide

theorem fieldGet_regexAnnotate (ratingsF : String → RatingAgg) (now : ℤ)
    (query : String) (d : Rec) (f : SField) :
    fieldGet f (regexAnnotate ratingsF now query d) = fieldGet f d := by
  cases f <;> rfl

theorem calcRelevanceScore_regexAnnotate (ratingsF : String → RatingAgg)
    (now : ℤ) (query query' : String) (d : Rec) :
    calcRelevanceScore now (regexAnnotate ratingsF now query' d) query
      = calcRelevanceScore now d query := by
  have hmap : scoreFields.map
      (fieldScore (regexAnnotate ratingsF now query' d) (lowerStr query)
        (pyWords (lowerStr query)))
      = scoreFields.map (fieldScore d (lowerStr query) (pyWords (lowerStr query))) := by
    apply List.map_congr_left
    intro f _
    unfold fieldScore
    rw [fieldGet_regexAnnotate]
  have hrec : recencyBonus now (regexAnnotate ratingsF now query' d)
      = recencyBonus now d := rfl
  show pyRound2 ((scoreFields.map
      (fieldScore (regexAnnotate ratingsF now query' d) (lowerStr query)
        (pyWords (lowerStr query)))).sum
    + recencyBonus now (regexAnnotate ratingsF now query' d))
    = pyRound2 ((scoreFields.map
      (fieldScore d (lowerStr query) (pyWords (lowerStr query)))).sum
    + recencyBonus now d)
  rw [hmap, hrec]

theorem matchesRegexFilter_regexAnnotate (rmatch : String → String → Bool)
    (ratingsF : String → RatingAgg)
    (now : ℤ) (query query' : String) (d : Rec) :
    matchesRegexFilter rmatch query (regexAnnotate ratingsF now query' d)
      = matchesRegexFilter rmatch query d := rfl

/-- C3 (amended): whenever the store's find succeeds (the raw query is a
valid pattern for the engine), the regex fallback matches the raw,
unescaped query as a case-insensitive regular-expression pattern —
engine-evaluated, so the theorem holds for every match predicate; for
metacharacter-free queries this is substring containment — across the
five fields summary, domain, extra_info, script AND prerequisites of ALL
records regardless of status, keeps only the `limit` most recent matches
(timestamp descending), computes the lexical field-weighted score for
those, sorts them by score descending, and annotates
`search_type = "regex"`. -/
theorem c3_regex_search_amended (rmatch : String → String → Bool)
    (ratingsF : String → RatingAgg) (now : ℤ)
    (db : List Rec) (query : String) (lim : ℕ) :
    (regexSearchDB rmatch ratingsF now db query lim).length ≤ lim ∧
    (∀ r ∈ regexSearchDB rmatch ratingsF now db query lim,
      r.searchType = "regex") ∧
    (∀ r ∈ regexSearchDB rmatch ratingsF now db query lim,
      r.score = calcRelevanceScore now r query) ∧
    (∀ r ∈ regexSearchDB rmatch ratingsF now db query lim,
      matchesRegexFilter rmatch query r = true) ∧
    (regexSearchDB rmatch ratingsF now db query lim).Pairwise
      (fun a b => b.score ≤ a.score) ∧
    (∀ r ∈ regexSearchDB rmatch ratingsF now db query lim,
      ∃ d ∈ db, matchesRegexFilter rmatch query d = true
        ∧ r = regexAnnotate ratingsF now query d) := by
  have hmem : ∀ r ∈ regexSearchDB rmatch ratingsF now db query lim,
      ∃ d ∈ db, matchesRegexFilter rmatch query d = true
        ∧ r = regexAnnotate ratingsF now query d := by
    intro r hr
    unfold regexSearchDB regexSearchCore at hr
    rw [mem_sortDescBy] at hr
    rcases List.mem_map.mp hr with ⟨d, hd, rfl⟩
    unfold findRegexRaw at hd
    have hd2 := List.mem_of_mem_take hd
    rw [mem_stableSortBy] at hd2
    rcases List.mem_filter.mp hd2 with ⟨hdb, hpred⟩
    exact ⟨d, hdb, hpred, rfl⟩
  refine ⟨?_, ?_, ?_, ?_, ?_, hmem⟩
  · unfold regexSearchDB regexSearchCore findRegexRaw
    rw [sortDescBy_length, List.length_map]
    exact List.length_take_le lim _
  · intro r hr
    rcases hmem r hr with ⟨d, _, _, rfl⟩
    rfl
  · intro r hr
    rcases hmem r hr with ⟨d, _, _, rfl⟩
    have h1 : (regexAnnotate ratingsF now query d).score
        = calcRelevanceScore now d query := rfl
    rw [h1, calcRelevanceScore_regexAnnotate]
  · intro r hr
    rcases hmem r hr with ⟨d, _, hpred, rfl⟩
    rw [matchesRegexFilter_regexAnnotate]
    exact hpred
  · unfold regexSearchDB regexSearchCore
    exact sortDescBy_pairwise _ _

/-! ## The search fallback chain (`search_mongodb` and its stages)

External calls may raise; a raised exception is an `Except.error`.  The
store's aggregate and find primitives, the embedding service call and the
ratings lookup are oracle functions carried in a `Store`.  Every external
invocation is recorded in an operation log, so "no store operation was
performed" and "every strategy received the sanitized query" are provable
statements about the log. -/

/-- A Python exception: pymongo's `OperationFailure` or anything else. -/
inductive PyErr where
  | opFailure (msg : String)
  | otherError (msg : String)
deriving DecidableEq, Repr

/-- The `"index" in str(e).lower()` test of `_atlas_search`. -/
def msgMentionsIndex (msg : String) : Bool := containsPy (lowerStr msg) "index"

/-- One recorded external invocation. -/
inductive StoreOp where
  | embedQuery (q : String)
  | vectorAgg (emb : List ℚ) (numCandidates lim : ℕ)
  | atlasAgg (q : String) (lim : ℕ)
  | regexFind (q : String) (lim : ℕ)
  | ratingsFind (sid : String)
deriving DecidableEq, Repr

/-- The query-string argument carried by an operation, when it has one. -/
def StoreOp.queryArg : StoreOp → Option String
  | .embedQuery q => some q
  | .atlasAgg q _ => some q
  | .regexFind q _ => some q
  | _ => none

/-- Recognizer for the regex-stage store call. -/
def StoreOp.isRegexFind : StoreOp → Bool
  | .regexFind _ _ => true
  | _ => false

/-- The external world of `MongoDB`: oracle behaviour of the embedding
service (total — `generate_query_embedding` catches everything and returns
a possibly-empty vector), of the three store search primitives (fallible),
of the ratings lookup (total — it catches everything), the
`vector_search_enabled and embedding_service` flag, and the clock. -/
structure Store where
  vectorEnabled : Bool
  genQueryEmbedding : String → List ℚ
  aggVector : List ℚ → ℕ → Except PyErr (List Rec)
  aggAtlas : String → ℕ → Except PyErr (List Rec)
  regexFind : String → ℕ → Except PyErr (List Rec)
  ratingsFor : String → RatingAgg
  now : ℤ

/-- `vector_search_mongodb(query, limit)`: guarded by availability and
query length, generates a query embedding, runs `$vectorSearch` with
`numCandidates = limit * 10`, annotates results; every exception inside is
caught and yields an empty list. -/
def vectorSearch (s : Store) (q : String) (lim : ℕ) : List Rec × List StoreOp :=
  if ¬ s.vectorEnabled then ([], [])
  else if q = "" ∨ (pyStrip q).length < 2 then ([], [])
  else
    let emb := s.genQueryEmbedding q
    if emb = [] then ([], [StoreOp.embedQuery q])
    else
      match s.aggVector emb lim with
      | .error _ => ([], [StoreOp.embedQuery q, StoreOp.vectorAgg emb (lim * 10) lim])
      | .ok rs =>
        (rs.map (fun r => { r with searchType := "vector", ratings := s.ratingsFor r.rid }),
         [StoreOp.embedQuery q, StoreOp.vectorAgg emb (lim * 10) lim]
           ++ rs.map (fun r => StoreOp.ratingsFind r.rid))

/-- The annotation `_atlas_search` applies to raw `$search` results. -/
def atlasAnnotated (s : Store) (rs : List Rec) : List Rec :=
  rs.map (fun r => { r with searchType := "atlas", ratings := s.ratingsFor r.rid })

/-- `_atlas_search(query, limit)`: runs `$search`, annotates results; an
`OperationFailure` mentioning "index" yields an empty list, any other
`OperationFailure` is re-raised, and any other exception yields an empty
list. -/
def atlasSearch (s : Store) (q : String) (lim : ℕ) :
    Except PyErr (List Rec) × List StoreOp :=
  match s.aggAtlas q lim with
  | .ok rs =>
    (.ok (atlasAnnotated s rs),
     StoreOp.atlasAgg q lim :: rs.map (fun r => StoreOp.ratingsFind r.rid))
  | .error (.opFailure msg) =>
    if msgMentionsIndex msg then (.ok [], [StoreOp.atlasAgg q lim])
    else (.error (.opFailure msg), [StoreOp.atlasAgg q lim])
  | .error (.otherError _) => (.ok [], [StoreOp.atlasAgg q lim])

/-- `_regex_search(query, limit)` as invoked by the orchestrator: the
store find may raise, and any exception is re-raised to the caller; on
success the pure scoring/sorting tail (`regexSearchCore`) runs. -/
def regexSearchOrch (s : Store) (q : String) (lim : ℕ) :
    Except PyErr (List Rec) × List StoreOp :=
  match s.regexFind q lim with
  | .ok ds =>
    (.ok (regexSearchCore s.ratingsFor s.now q ds),
     StoreOp.regexFind q lim :: ds.map (fun r => StoreOp.ratingsFind r.rid))
  | .error e => (.error e, [StoreOp.regexFind q lim])

/-- `hybrid_search_mongodb(query, limit)`: vector search for
`max(1, limit // 2)` candidates, text search for the remainder, merge and
truncate; an exception escaping the body (only the atlas stage can raise)
falls back to vector search alone. -/
def hybridSearch (s : Store) (q : String) (lim : ℕ) : List Rec × List StoreOp :=
  let vlim := max 1 (lim / 2)
  let vp := vectorSearch s q vlim
  let tlim := lim - vp.1.length
  let ap := if 0 < tlim then atlasSearch s q tlim else (.ok [], [])
  match ap.1 with
  | .ok tres => ((mergeSearchResults vp.1 tres).take lim, vp.2 ++ ap.2)
  | .error _ =>
    let vp2 := vectorSearch s q lim
    (vp2.1, vp.2 ++ ap.2 ++ vp2.2)

/-- Stages 3 and 4 of `search_mongodb` together with the orchestrator's
outer `except Exception` handler: an exception escaping the atlas or regex
stage is caught and turns the whole search into an empty result. -/
def stage34 (s : Store) (sq : String) (lim : ℕ) (ops0 : List StoreOp) :
    List Rec × List StoreOp :=
  let ap := atlasSearch s sq lim
  match ap.1 with
  | .ok r3 =>
    if r3 ≠ [] then (r3, ops0 ++ ap.2)
    else
      let rp := regexSearchOrch s sq lim
      match rp.1 with
      | .ok r4 => (r4, ops0 ++ ap.2 ++ rp.2)
      | .error _ => ([], ops0 ++ ap.2 ++ rp.2)
  | .error _ => ([], ops0 ++ ap.2)

/-- The body of `search_mongodb` after validation, applied to the
sanitized query: vector stage, hybrid stage (both only when vector search
is enabled, each returning early on a non-empty result), then stages 3-4. -/
def searchBody (s : Store) (sq : String) (lim : ℕ) : List Rec × List StoreOp :=
  if s.vectorEnabled then
    let p1 := vectorSearch s sq lim
    if p1.1 ≠ [] then p1
    else
      let p2 := hybridSearch s sq lim
      if p2.1 ≠ [] then (p2.1, p1.2 ++ p2.2)
      else stage34 s sq lim (p1.2 ++ p2.2)
  else stage34 s sq lim []

/-- `search_mongodb(query, limit)`: validation short-circuit for queries
whose trimmed length is below 2 (including the falsy empty string), then
the fallback chain on `query.strip()[:100]`. -/
def searchMongodb (s : Store) (q : String) (lim : ℕ) : List Rec × List StoreOp :=
  if q = "" ∨ (pyStrip q).length < 2 then ([], [])
  else searchBody s (pyTake 100 (pyStrip q)) lim

/-! ## Claim C4: validation short-circuit -/

/-- C4: for every store behaviour, query whose trimmed length is below two
characters (including empty and whitespace-only queries) and limit,
`search_mongodb` returns an empty list and performs no store operation or
embedding call (the operation log is empty). -/
theorem c4_short_query_short_circuit (s : Store) (q : String) (lim : ℕ)
    (hq : (pyStrip q).length < 2) :
    searchMongodb s q lim = ([], []) := by
  unfold searchMongodb
  rw [if_pos (Or.inr hq)]

/-- A concrete store behaviour used to instantiate the orchestrator
theorems. -/
def sampleStore : Store :=
  { vectorEnabled := true,
    genQueryEmbedding := fun _ => [1, 0],
    aggVector := fun _ _ => .ok [],
    aggAtlas := fun _ _ => .ok [],
    regexFind := fun _ _ => .ok [],
    ratingsFor := fun _ => {},
    now := 0 }

/-- C4 witness: the whitespace-padded one-character query `" a "`. -/
theorem c4_short_query_short_circuit_witness :
    (pyStrip " a ").length < 2 ∧ searchMongodb sampleStore " a " 10 = ([], []) :=
  ⟨by decide, c4_short_query_short_circuit sampleStore " a " 10 (by decide)⟩

/-! ## Claim C10: query sanitization to a 100-character prefix -/

/-- An operation is compatible with sanitized query `q` when it carries no
query string or carries exactly `q`. -/
def QueryOk (q : String) (op : StoreOp) : Prop :=
  op.queryArg = none ∨ op.queryArg = some q

theorem queryOk_ratings (q : String) (rs : List Rec) :
    ∀ op ∈ rs.map (fun r => StoreOp.ratingsFind r.rid), QueryOk q op := by
  intro op hop
  rcases List.mem_map.mp hop with ⟨r, _, rfl⟩
  exact Or.inl rfl

theorem vectorSearch_queryOk (s : Store) (q : String) (lim : ℕ) :
    ∀ op ∈ (vectorSearch s q lim).2, QueryOk q op := by
  intro op hop
  unfold vectorSearch at hop
  by_cases h1 : s.vectorEnabled
  · by_cases h2 : q = "" ∨ (pyStrip q).length < 2
    · simp [h1, h2] at hop
    · by_cases h3 : s.genQueryEmbedding q = []
      · simp [h1, h2, h3] at hop
        subst hop
        exact Or.inr rfl
      · rcases hagg : s.aggVector (s.genQueryEmbedding q) lim with e | rs <;>
          simp [h1, h2, h3, hagg] at hop
        · rcases hop with rfl | rfl
          · exact Or.inr rfl
          · exact Or.inl rfl
        · rcases hop with rfl | rfl | ⟨r, _, rfl⟩
          · exact Or.inr rfl
          · exact Or.inl rfl
          · exact Or.inl rfl
  · simp [h1] at hop

theorem atlasSearch_queryOk (s : Store) (q : String) (lim : ℕ) :
    ∀ op ∈ (atlasSearch s q lim).2, QueryOk q op := by
  intro op hop
  unfold atlasSearch at hop
  rcases haa : s.aggAtlas q lim with e | rs
  · rcases e with msg | msg
    · by_cases hidx : msgMentionsIndex msg <;> simp [haa, hidx] at hop <;>
        (subst hop; exact Or.inr rfl)
    · simp [haa] at hop
      subst hop
      exact Or.inr rfl
  · simp [haa] at hop
    rcases hop with rfl | ⟨r, _, rfl⟩
    · exact Or.inr rfl
    · exact Or.inl rfl

theorem regexSearchOrch_queryOk (s : Store) (q : String) (lim : ℕ) :
    ∀ op ∈ (regexSearchOrch s q lim).2, QueryOk q op := by
  intro op hop
  unfold regexSearchOrch at hop
  rcases hrf : s.regexFind q lim with e | ds
  · simp [hrf] at hop
    subst hop
    exact Or.inr rfl
  · simp [hrf] at hop
    rcases hop with rfl | ⟨r, _, rfl⟩
    · exact Or.inr rfl
    · exact Or.inl rfl

theorem hybridSearch_queryOk (s : Store) (q : String) (lim : ℕ) :
    ∀ op ∈ (hybridSearch s q lim).2, QueryOk q op := by
  intro op hop
  unfold hybridSearch at hop
  by_cases hpos : 0 < lim - (vectorSearch s q (max 1 (lim / 2))).1.length
  · rcases hAt : (atlasSearch s q
        (lim - (vectorSearch s q (max 1 (lim / 2))).1.length)).1 with e | tres <;>
      simp only [hpos, if_true, ite_true, hAt, List.mem_append] at hop
    · rcases hop with (h | h) | h
      · exact vectorSearch_queryOk s q _ _ h
      · exact atlasSearch_queryOk s q _ _ h
      · exact vectorSearch_queryOk s q _ _ h
    · rcases hop with h | h
      · exact vectorSearch_queryOk s q _ _ h
      · exact atlasSearch_queryOk s q _ _ h
  · simp only [hpos, if_false, ite_false, List.mem_append] at hop
    rcases hop with h | h
    · exact vectorSearch_queryOk s q _ _ h
    · simp at h

theorem stage34_queryOk (s : Store) (sq : String) (lim : ℕ) (ops0 : List StoreOp)
    (h0 : ∀ op ∈ ops0, QueryOk sq op) :
    ∀ op ∈ (stage34 s sq lim ops0).2, QueryOk sq op := by
  intro op hop
  unfold stage34 at hop
  rcases hAt : (atlasSearch s sq lim).1 with e | r3
  · simp only [hAt, List.mem_append] at hop
    rcases hop with h | h
    · exact h0 _ h
    · exact atlasSearch_queryOk s sq lim _ h
  · simp only [hAt] at hop
    by_cases hr3 : r3 ≠ []
    · rw [if_pos hr3] at hop
      rcases List.mem_append.mp hop with h | h
      · exact h0 _ h
      · exact atlasSearch_queryOk s sq lim _ h
    · rw [if_neg hr3] at hop
      rcases hRe : (regexSearchOrch s sq lim).1 with e4 | r4 <;>
        simp only [hRe, List.mem_append] at hop <;>
      · rcases hop with (h | h) | h
        · exact h0 _ h
        · exact atlasSearch_queryOk s sq lim _ h
        · exact regexSearchOrch_queryOk s sq lim _ h

theorem searchBody_queryOk (s : Store) (sq : String) (lim : ℕ) :
    ∀ op ∈ (searchBody s sq lim).2, QueryOk sq op := by
  intro op hop
  unfold searchBody at hop
  by_cases h1 : s.vectorEnabled
  · rw [if_pos h1] at hop
    by_cases hp1 : (vectorSearch s sq lim).1 ≠ []
    · rw [if_pos hp1] at hop
      exact vectorSearch_queryOk s sq lim _ hop
    · rw [if_neg hp1] at hop
      by_cases hp2 : (hybridSearch s sq lim).1 ≠ []
      · rw [if_pos hp2] at hop
        rcases List.mem_append.mp hop with h | h
        · exact vectorSearch_queryOk s sq lim _ h
        · exact hybridSearch_queryOk s sq lim _ h
      · rw [if_neg hp2] at hop
        refine stage34_queryOk s sq lim _ ?_ _ hop
        intro o ho
        rcases List.mem_append.mp ho with h | h
        · exact vectorSearch_queryOk s sq lim _ h
        · exact hybridSearch_queryOk s sq lim _ h
  · rw [if_neg h1] at hop
    refine stage34_queryOk s sq lim _ ?_ _ hop
    intro o ho
    simp at ho

/-- The validation guard of `search_mongodb` is equivalent to the
sanitized query being shorter than two characters. -/
theorem searchGuard_iff (q : String) :
    (q = "" ∨ (pyStrip q).length < 2) ↔ (pyTake 100 (pyStrip q)).length < 2 := by
  have hlen : (pyTake 100 (pyStrip q)).length = min 100 (pyStrip q).length := by
    show ((pyStrip q).toList.take 100).length = _
    rw [List.length_take]
    rfl
  constructor
  · rintro (rfl | h)
    · decide
    · omega
  · intro h
    rw [hlen] at h
    right
    omega

/-- C10: `search_mongodb` truncates the trimmed query to its first 100
characters before any strategy runs — two queries with the same
100-character trimmed prefix are indistinguishable (same results, same
operations), and every logged operation that carries a query string
carries exactly that prefix. -/
theorem c10_query_sanitization (s : Store) (q1 q2 : String) (lim : ℕ)
    (hpre : pyTake 100 (pyStrip q1) = pyTake 100 (pyStrip q2)) :
    searchMongodb s q1 lim = searchMongodb s q2 lim ∧
    ∀ op ∈ (searchMongodb s q1 lim).2,
      op.queryArg = none ∨ op.queryArg = some (pyTake 100 (pyStrip q1)) := by
  have hg : (q1 = "" ∨ (pyStrip q1).length < 2) ↔ (q2 = "" ∨ (pyStrip q2).length < 2) := by
    rw [searchGuard_iff, searchGuard_iff, hpre]
  constructor
  · by_cases hg1 : q1 = "" ∨ (pyStrip q1).length < 2
    · unfold searchMongodb
      rw [if_pos hg1, if_pos (hg.mp hg1)]
    · unfold searchMongodb
      rw [if_neg hg1, if_neg (fun h => hg1 (hg.mpr h)), hpre]
  · by_cases hg1 : q1 = "" ∨ (pyStrip q1).length < 2
    · unfold searchMongodb
      rw [if_pos hg1]
      intro op hop
      simp at hop
    · unfold searchMongodb
      rw [if_neg hg1]
      exact searchBody_queryOk s (pyTake 100 (pyStrip q1)) lim

/-- C10 witness: two 101-character queries sharing their first 100
characters but differing in the tail. -/
theorem c10_query_sanitization_witness :
    searchMongodb sampleStore
        (String.mk (List.replicate 100 'a' ++ ['b'])) 10
      = searchMongodb sampleStore
        (String.mk (List.replicate 100 'a' ++ ['c'])) 10 ∧
    ∀ op ∈ (searchMongodb sampleStore
        (String.mk (List.replicate 100 'a' ++ ['b'])) 10).2,
      op.queryArg = none ∨
        op.queryArg = some (pyTake 100 (pyStrip
          (String.mk (List.replicate 100 'a' ++ ['b'])))) :=
  c10_query_sanitization sampleStore _ _ 10 (by decide)

/-! ## Claim C2: error containment along the fallback chain -/

/-- The outcome the caller observes from the regex stage: the scored
results when the store find succeeds, an empty list when it raises (the
exception is caught by the orchestrator's outer handler). -/
def regexOutcome (s : Store) (sq : String) (lim : ℕ) : List Rec :=
  match s.regexFind sq lim with
  | .ok ds => regexSearchCore s.ratingsFor s.now sq ds
  | .error _ => []

/-- Spec-level statement of the corrected fall-through behaviour of the
lexical and regex stages of `search_mongodb` when vector search is
disabled: atlas results are returned when non-empty; an empty atlas
result, an index-related `OperationFailure` or a generic atlas exception
fall through to the regex stage; any other `OperationFailure` escaping the
atlas stage aborts the chain with an empty list, skipping regex. -/
def lexicalChainSpec (s : Store) (sq : String) (lim : ℕ) : List Rec :=
  match s.aggAtlas sq lim with
  | .ok rs => if rs = [] then regexOutcome s sq lim else atlasAnnotated s rs
  | .error (.opFailure msg) =>
      if msgMentionsIndex msg then regexOutcome s sq lim else []
  | .error (.otherError _) => regexOutcome s sq lim

/-- Spec-level outcome of the chain when vector search is enabled but the
vector operator fails on every call: vector-stage errors are absorbed, and
a non-empty atlas result surfaces through the hybrid merge. -/
def hybridChainSpec (s : Store) (sq : String) (lim : ℕ) : List Rec :=
  match s.aggAtlas sq lim with
  | .ok rs => if rs = [] then regexOutcome s sq lim
              else (mergeSearchResults [] (atlasAnnotated s rs)).take lim
  | .error (.opFailure msg) =>
      if msgMentionsIndex msg then regexOutcome s sq lim else []
  | .error (.otherError _) => regexOutcome s sq lim

theorem stage34_fst (s : Store) (sq : String) (lim : ℕ) (ops0 : List StoreOp) :
    (stage34 s sq lim ops0).1 = lexicalChainSpec s sq lim := by
  unfold stage34 lexicalChainSpec atlasSearch regexOutcome regexSearchOrch
  rcases haa : s.aggAtlas sq lim with e | rs
  · rcases e with msg | msg
    · by_cases hidx : msgMentionsIndex msg
      · rcases hrf : s.regexFind sq lim with e2 | ds <;> simp [hidx, hrf]
      · simp [hidx]
    · rcases hrf : s.regexFind sq lim with e2 | ds <;> simp [hrf]
  · by_cases hrs : rs = []
    · subst hrs
      rcases hrf : s.regexFind sq lim with e2 | ds <;> simp [atlasAnnotated, hrf]
    · simp [hrs, atlasAnnotated]

theorem vectorSearch_allErr (s : Store) (q : String) (lim : ℕ)
    (h : ∀ emb n, ∃ e, s.aggVector emb n = .error e) :
    (vectorSearch s q lim).1 = [] := by
  unfold vectorSearch
  by_cases h1 : s.vectorEnabled
  · by_cases h2 : q = "" ∨ (pyStrip q).length < 2
    · simp [h1, h2]
    · by_cases h3 : s.genQueryEmbedding q = []
      · simp [h1, h2, h3]
      · obtain ⟨e, he⟩ := h (s.genQueryEmbedding q) lim
        simp [h1, h2, h3, he]
  · simp [h1]

theorem updateFirst_length (p : Rec → Bool) (f : Rec → Rec) (l : List Rec) :
    (updateFirst p f l).length = l.length := by
  induction l with
  | nil => rfl
  | cons x xs ih =>
    by_cases hp : p x <;> simp [updateFirst, hp, ih]

theorem mergeTextPass_length_ge (l : List Rec) :
    ∀ (merged : List Rec) (seen : List String),
      merged.length ≤ (mergeTextPass l merged seen).1.length := by
  induction l with
  | nil => intro merged seen; simp [mergeTextPass]
  | cons r rest ih =>
    intro merged seen
    by_cases hmem : r.rid ∈ seen
    · simp only [mergeTextPass, hmem, if_true]
      calc merged.length
          = (updateFirst (fun m => m.rid = r.rid)
              (fun m => { m with combinedScore := m.combinedScore + r.score * (3 / 10),
                                 searchSources := m.searchSources ++ ["text"] })
              merged).length := (updateFirst_length _ _ _).symm
        _ ≤ _ := ih _ _
    · simp only [mergeTextPass, hmem, if_false]
      calc merged.length
          ≤ (merged ++ [{ r with combinedScore := r.score * (4 / 5),
                                 searchSources := ["text"] }]).length := by
            simp
        _ ≤ _ := ih _ _

theorem mergeSearchResults_nil_ne_nil (txt : List Rec) (h : txt ≠ []) :
    mergeSearchResults [] txt ≠ [] := by
  rcases txt with _ | ⟨r, rest⟩
  · exact absurd rfl h
  · apply List.ne_nil_of_length_pos
    have h1 : 1 ≤ (mergeTextPass (r :: rest) [] []).1.length := by
      have hmem : ¬ (r.rid ∈ ([] : List String)) := by simp
      simp only [mergeTextPass, hmem, if_false]
      calc 1 = ([] ++ [{ r with combinedScore := r.score * (4 / 5),
                                searchSources := ["text"] }]).length := by simp
        _ ≤ _ := mergeTextPass_length_ge rest _ _
    have h2 : (mergeSearchResults [] (r :: rest)).length
        = (mergeTextPass (r :: rest) [] []).1.length := by
      show ((sortDescBy (fun r => r.combinedScore)
          (mergeTextPass (r :: rest) [] []).1).map tagSearchType).length = _
      rw [List.length_map, sortDescBy_length]
    omega

theorem mergeSearchResults_nil_nil : mergeSearchResults [] [] = [] := rfl

theorem hybridSearch_allErrFst (s : Store) (sq : String) (lim : ℕ)
    (hverr : ∀ emb n, ∃ e, s.aggVector emb n = .error e) (hlim : 1 ≤ lim) :
    (hybridSearch s sq lim).1 =
      match s.aggAtlas sq lim with
      | .ok rs => (mergeSearchResults [] (atlasAnnotated s rs)).take lim
      | .error _ => [] := by
  have hv := vectorSearch_allErr s sq (max 1 (lim / 2)) hverr
  have hv2 := vectorSearch_allErr s sq lim hverr
  unfold hybridSearch atlasSearch
  simp only [hv, List.length_nil, Nat.sub_zero]
  rw [if_pos (by omega : 0 < lim)]
  rcases haa : s.aggAtlas sq lim with e | rs
  · rcases e with msg | msg
    · by_cases hidx : msgMentionsIndex msg
      · simp [hidx, hv, mergeSearchResults_nil_nil]
      · simp [hidx, hv2]
    · simp [hv, mergeSearchResults_nil_nil]
  · simp [hv]

/-- C2 (amended): (a) every search returns a plain list — exceptions from
any stage never reach the caller; (b) with vector search disabled, the
lexical/regex chain behaves as `lexicalChainSpec`: an index-related
`OperationFailure` or generic atlas error falls through to regex, but any
other `OperationFailure` escaping the lexical stage makes the orchestrator
return an empty list immediately, skipping the regex stage; a failing or
empty regex stage also yields the empty list (exhaustion); (c) with vector
search enabled but the vector operator failing on every call, those errors
are absorbed and the chain continues to the atlas/regex stages per
`hybridChainSpec`. -/
theorem c2_chain_error_containment (s : Store) (q : String) (lim : ℕ)
    (hq : 2 ≤ (pyStrip q).length) :
    (s.vectorEnabled = false →
      (searchMongodb s q lim).1 = lexicalChainSpec s (pyTake 100 (pyStrip q)) lim) ∧
    (s.vectorEnabled = true →
      (∀ emb n, ∃ e, s.aggVector emb n = .error e) → 1 ≤ lim →
      (searchMongodb s q lim).1 = hybridChainSpec s (pyTake 100 (pyStrip q)) lim) := by
  have hguard : ¬(q = "" ∨ (pyStrip q).length < 2) := by
    rintro (rfl | h)
    · revert hq
      decide
    · omega
  constructor
  · intro hv
    unfold searchMongodb
    rw [if_neg hguard]
    unfold searchBody
    rw [if_neg (by simp [hv])]
    exact stage34_fst s _ lim []
  · intro hv hverr hlim
    unfold searchMongodb
    rw [if_neg hguard]
    unfold searchBody
    rw [if_pos hv]
    have hp1 : (vectorSearch s (pyTake 100 (pyStrip q)) lim).1 = [] :=
      vectorSearch_allErr s _ lim hverr
    rw [if_neg (by simp [hp1])]
    have hhyb := hybridSearch_allErrFst s (pyTake 100 (pyStrip q)) lim hverr hlim
    rcases haa : s.aggAtlas (pyTake 100 (pyStrip q)) lim with e | rs
    · have hh : (hybridSearch s (pyTake 100 (pyStrip q)) lim).1 = [] := by
        rw [hhyb, haa]
      rw [if_neg (by simp [hh])]
      rw [stage34_fst]
      unfold lexicalChainSpec hybridChainSpec
      rcases e with msg | msg <;> simp [haa]
    · by_cases hrs : rs = []
      · subst hrs
        have hh : (hybridSearch s (pyTake 100 (pyStrip q)) lim).1 = [] := by
          rw [hhyb, haa]
          simp [atlasAnnotated, mergeSearchResults_nil_nil]
        rw [if_neg (by simp [hh])]
        rw [stage34_fst]
        unfold lexicalChainSpec hybridChainSpec
        simp [haa]
      · have hh : (hybridSearch s (pyTake 100 (pyStrip q)) lim).1
            = (mergeSearchResults [] (atlasAnnotated s rs)).take lim := by
          rw [hhyb, haa]
        have hne : (mergeSearchResults [] (atlasAnnotated s rs)).take lim ≠ [] := by
          intro hc
          rcases (List.take_eq_nil_iff).mp hc with h0 | h0
          · omega
          · exact mergeSearchResults_nil_ne_nil (atlasAnnotated s rs)
              (by simp [atlasAnnotated, hrs]) h0
        rw [if_pos (by rw [hh]; exact hne)]
        show (hybridSearch s (pyTake 100 (pyStrip q)) lim).1 = _
        rw [hh]
        unfold hybridChainSpec
        rw [haa]
        simp [hrs]

/-- C2 witness: a store with vector search disabled whose atlas operator
raises an index-unavailable `OperationFailure` and whose regex find
returns nothing: the chain falls through to regex and returns its (empty)
outcome. -/
def c2WitnessStore : Store :=
  { vectorEnabled := false,
    genQueryEmbedding := fun _ => [],
    aggVector := fun _ _ => .error (.otherError "unused"),
    aggAtlas := fun _ _ => .error (.opFailure "text index required"),
    regexFind := fun _ _ => .ok [],
    ratingsFor := fun _ => {},
    now := 0 }

/-- C2 witness instance: the amended theorem applied to `c2WitnessStore`
at the query `"hello"`. -/
theorem c2_chain_error_containment_witness :
    (c2WitnessStore.vectorEnabled = false →
      (searchMongodb c2WitnessStore "hello" 10).1
        = lexicalChainSpec c2WitnessStore (pyTake 100 (pyStrip "hello")) 10) ∧
    (c2WitnessStore.vectorEnabled = true →
      (∀ emb n, ∃ e, c2WitnessStore.aggVector emb n = .error e) → 1 ≤ 10 →
      (searchMongodb c2WitnessStore "hello" 10).1
        = hybridChainSpec c2WitnessStore (pyTake 100 (pyStrip "hello")) 10) :=
  c2_chain_error_containment c2WitnessStore "hello" 10 (by decide)

/-- The store of the C2 counterexample: vector disabled, the atlas stage
raises a non-index `OperationFailure`, and the regex stage would return a
matching record. -/
def c2BoomStore : Store :=
  { vectorEnabled := false,
    genQueryEmbedding := fun _ => [],
    aggVector := fun _ _ => .error (.otherError "unused"),
    aggAtlas := fun _ _ => .error (.opFailure "socket timeout"),
    regexFind := fun _ _ => .ok [{ rid := "r9", summary := "payment automation" }],
    ratingsFor := fun _ => {},
    now := 0 }

/-- C2 (counterexample): a non-index `OperationFailure` raised inside the
lexical stage is NOT treated as a signal to fall through to the next
stage: the orchestrator returns an empty list, the regex stage is never
invoked (no regex find appears in the operation log), even though that
stage would have produced a non-empty result. -/
theorem c2_counterexample :
    (searchMongodb c2BoomStore "hello" 10).1 = [] ∧
    (∀ op ∈ (searchMongodb c2BoomStore "hello" 10).2, op.isRegexFind = false) ∧
    (regexSearchOrch c2BoomStore "hello" 10).1
      = .ok (regexSearchCore c2BoomStore.ratingsFor c2BoomStore.now "hello"
          [{ rid := "r9", summary := "payment automation" }]) ∧
    regexSearchCore c2BoomStore.ratingsFor c2BoomStore.now "hello"
      [{ rid := "r9", summary := "payment automation" }] ≠ [] := by
  refine ⟨?_, ?_, rfl, ?_⟩
  · decide
  · decide
  · decide

/-! ## The write paths: `add_solution_to_mongodb`, the embedding service
and the migration/backfill driver -/

/-- The `search_metadata` sub-document. -/
structure Meta where
  hasEmbedding : Bool := false
  embeddingModel : Option String := none
  embeddingTimestamp : Option ℤ := none
  embeddingError : Option String := none
  combinedTextPreview : Option String := none
  migrationBatch : Option ℕ := none
deriving DecidableEq, Repr

/-- A persisted solution document.  `embedding = none` and
`searchMeta = none` model an absent field (pre-vector records); string
fields default to the empty string, matching `doc.get(field, '')`.
The session-derived `created_by` field is not modelled. -/
structure SolDoc where
  domain : String := ""
  summary : String := ""
  script : String := ""
  blockDiagram : String := ""
  prereqs : String := ""
  unitTests : String := ""
  extraInfo : String := ""
  embedding : Option (List ℚ) := none
  searchMeta : Option Meta := none
  timestamp : ℤ := 0
  usageCount : ℕ := 0
  version : String := "1.0"
  status : String := "active"
deriving DecidableEq, Repr

/-- The message rendered by `str(e)`. -/
def PyErr.msg : PyErr → String
  | .opFailure m => m
  | .otherError m => m

/-- Join a list of strings with a separator (`sep.join(parts)`). -/
def joinSep (sep : String) : List String → String
  | [] => ""
  | [x] => x
  | x :: xs => x ++ sep ++ joinSep sep xs

/-- `s.split(c)` keeping empty pieces. -/
def splitOnCharGo (c : Char) : List Char → List Char → List (List Char)
  | acc, [] => [acc.reverse]
  | acc, x :: rest =>
    if x = c then acc.reverse :: splitOnCharGo c [] rest
    else splitOnCharGo c (x :: acc) rest

/-- `_prepare_text`: strip, collapse whitespace runs to single spaces, and
truncate to 7000 characters with an ellipsis. -/
def prepareText (text : String) : String :=
  let ct := String.mk (collapseWs (pyStrip text).toList)
  if 7000 < ct.length then pyTake 7000 ct ++ "..." else ct

/-- The `Script Context` component: the first five lines of the stripped
script. -/
def scriptPreview (script : String) : String :=
  joinSep "\n"
    (((splitOnCharGo '\n' [] (pyStrip script).toList).take 5).map
      (fun cs => String.mk cs))

/-- `create_combined_text_for_embedding`: labelled non-empty components
joined by blank lines, then `_prepare_text`. -/
def createCombinedText (domain summary prereqs extraInfo script : String) : String :=
  let comps :=
    (if pyStrip domain = "" then [] else ["Domain: " ++ pyStrip domain]) ++
    (if pyStrip summary = "" then [] else ["Summary: " ++ pyStrip summary]) ++
    (if pyStrip prereqs = "" then [] else ["Prerequisites: " ++ pyStrip prereqs]) ++
    (if pyStrip extraInfo = "" then []
     else ["Additional Information: " ++ pyStrip extraInfo]) ++
    (if pyStrip script = "" then [] else ["Script Context: " ++ scriptPreview script])
  prepareText (joinSep "\n\n" comps)

/-- The combined embedding text of a stored document, built from
`doc.get(field, '')` exactly as in both write paths. -/
def combinedTextOfDoc (d : SolDoc) : String :=
  createCombinedText d.domain d.summary d.prereqs d.extraInfo d.script

/-- The retry loop of `generate_embedding`: an attempt oracle returns the
embedding (`ok some`), a result without an embedding key (`ok none`), or
raises.  A raise before the last attempt backs off and retries; a raise on
the last attempt propagates to the outer handler, which returns the empty
list.  The fuel equals the retry budget. -/
def genEmbedAttempts (attempt : ℕ → Except PyErr (Option (List ℚ)))
    (maxRetries : ℕ) : ℕ → ℕ → List ℚ
  | 0, _ => []
  | rem + 1, i =>
    match attempt i with
    | .ok (some v) => v
    | .ok none => genEmbedAttempts attempt maxRetries rem (i + 1)
    | .error _ =>
      if i < maxRetries - 1 then genEmbedAttempts attempt maxRetries rem (i + 1)
      else []

/-- `generate_embedding(text, max_retries=3)`: empty or blank text embeds
to nothing; otherwise the retry loop runs with budget 3. -/
def generateEmbedding (attempt : ℕ → Except PyErr (Option (List ℚ)))
    (text : String) : List ℚ :=
  if pyStrip text = "" then [] else genEmbedAttempts attempt 3 3 0

theorem generateEmbedding_allFail (attempt : ℕ → Except PyErr (Option (List ℚ)))
    (text : String) (h : ∀ n, ∃ e, attempt n = .error e) :
    generateEmbedding attempt text = [] := by
  unfold generateEmbedding
  by_cases ht : pyStrip text = ""
  · simp [ht]
  · rw [if_neg ht]
    have hgen : ∀ (rem i : ℕ), genEmbedAttempts attempt 3 rem i = [] := by
      intro rem
      induction rem with
      | zero => intro i; rfl
      | succ r ih =>
        intro i
        obtain ⟨e, he⟩ := h i
        by_cases hi : i < 3 - 1 <;> simp [genEmbedAttempts, he, hi, ih]
    exact hgen 3 0

/-- `add_solution_to_mongodb(summary, script, block_diagram,
prerequisites, domain, extra_info)`: validation, optional embedding
generation (the call may raise — the handler records the message), then
the document as inserted.  `none` models a rejected save. -/
def addSolution (enabled : Bool) (embedCall : String → Except PyErr (List ℚ))
    (now : ℤ) (summary script blockDiagram prereqs domain extraInfo : String) :
    Option SolDoc :=
  if pyStrip summary = "" ∨ pyStrip script = "" ∨ pyStrip domain = "" then none
  else if (pyStrip summary).length < 50 then none
  else if (pyStrip script).length < 50 then none
  else
    let combined := createCombinedText domain summary prereqs extraInfo script
    let base : Meta := {}
    let pair : List ℚ × Meta :=
      if enabled then
        match embedCall combined with
        | .ok e =>
          if e ≠ [] then
            (e, { base with
                    hasEmbedding := true,
                    embeddingModel := some "gemini-embedding-001",
                    embeddingTimestamp := some now,
                    combinedTextPreview := some (pyTake 500 combined) })
          else ([], { base with embeddingError := some "Failed to generate embedding" })
        | .error err => ([], { base with embeddingError := some err.msg })
      else ([], base)
    some { domain := pyStrip domain,
           summary := pyStrip summary,
           script := pyStrip script,
           blockDiagram := pyStrip blockDiagram,
           prereqs := pyStrip prereqs,
           unitTests := "",
           extraInfo := pyStrip extraInfo,
           embedding := some pair.1,
           searchMeta := some pair.2,
           timestamp := now,
           usageCount := 0,
           version := if pair.1 ≠ [] then "2.0" else "1.0",
           status := "active" }

/-- The value found at `search_metadata.has_embedding`, `false` when the
path is absent. -/
def hasEmbeddingOf (d : SolDoc) : Bool :=
  match d.searchMeta with
  | some m => m.hasEmbedding
  | none => false

/-- The backfill selection query of `migrate_existing_data_to_vectors`:
`$or` of `has_embedding != true` (value differs or path missing),
`search_metadata` absent, and `embedding` absent. -/
def matchesMigrationFilter (d : SolDoc) : Bool :=
  !(hasEmbeddingOf d) || d.searchMeta.isNone || d.embedding.isNone

/-- The per-document update of the migration driver: on a successful
embedding, attach it with fresh success metadata and bump the version; on
failure, replace only the metadata with a failure record (the stored
`embedding` field is untouched). -/
def migrateStep (embed : String → List ℚ) (now : ℤ) (batchNum : ℕ)
    (d : SolDoc) : SolDoc :=
  let combined := combinedTextOfDoc d
  let e := embed combined
  if e ≠ [] then
    { d with embedding := some e,
             searchMeta := some { hasEmbedding := true,
                                  embeddingModel := some "gemini-embedding-001",
                                  embeddingTimestamp := some now,
                                  embeddingError := none,
                                  combinedTextPreview := some (pyTake 500 combined),
                                  migrationBatch := some batchNum },
             version := "2.0" }
  else
    { d with searchMeta := some { hasEmbedding := false,
                                  embeddingModel := none,
                                  embeddingTimestamp := some now,
                                  embeddingError :=
                                    some "Failed to generate embedding during migration",
                                  combinedTextPreview := none,
                                  migrationBatch := none } }

/-- The metadata the migration driver writes when embedding generation
fails for a record. -/
def migrationFailureMeta (now : ℤ) : Meta :=
  { hasEmbedding := false, embeddingModel := none, embeddingTimestamp := some now,
    embeddingError := some "Failed to generate embedding during migration",
    combinedTextPreview := none, migrationBatch := none }

/-- Number of records a collection prefix contributes to the backfill
cursor. -/
def countMatching (l : List SolDoc) : ℕ :=
  (l.filter matchesMigrationFilter).length

/-- The migration run over the collection in cursor order: the first
`maxDocs` records matching the selection query are processed (batch number
`processed_index / batch_size + 1`), everything else is untouched.  `k`
counts already-processed records. -/
def migrateRunGo (embed : String → List ℚ) (now : ℤ) (batchSize maxDocs : ℕ) :
    ℕ → List SolDoc → List SolDoc
  | _, [] => []
  | k, d :: rest =>
    if matchesMigrationFilter d then
      if k < maxDocs then
        migrateStep embed now (k / batchSize + 1) d ::
          migrateRunGo embed now batchSize maxDocs (k + 1) rest
      else d :: migrateRunGo embed now batchSize maxDocs k rest
    else d :: migrateRunGo embed now batchSize maxDocs k rest

/-- `migrate_existing_data_to_vectors(batch_size, max_documents)` acting
on the whole collection. -/
def migrateRunDB (embed : String → List ℚ) (now : ℤ) (batchSize maxDocs : ℕ)
    (db : List SolDoc) : List SolDoc :=
  migrateRunGo embed now batchSize maxDocs 0 db

theorem migrateRunGo_length (embed : String → List ℚ) (now : ℤ)
    (bs maxD : ℕ) : ∀ (db : List SolDoc) (k : ℕ),
    (migrateRunGo embed now bs maxD k db).length = db.length := by
  intro db
  induction db with
  | nil => intro k; rfl
  | cons d rest ih =>
    intro k
    by_cases hf : matchesMigrationFilter d
    · by_cases hk : k < maxD <;> simp [migrateRunGo, hf, hk, ih]
    · simp [migrateRunGo, hf, ih]

/-- Element-wise characterization of the migration run: each record's
final state depends only on that record, whether it matches the selection
query, and how many matching records precede it relative to the cap. -/
theorem migrateRunGo_getElem (embed : String → List ℚ) (now : ℤ)
    (bs maxD : ℕ) : ∀ (db : List SolDoc) (k j : ℕ),
    (migrateRunGo embed now bs maxD k db)[j]? =
      (db[j]?).map (fun d =>
        if matchesMigrationFilter d ∧ k + countMatching (db.take j) < maxD
        then migrateStep embed now ((k + countMatching (db.take j)) / bs + 1) d
        else d) := by
  intro db
  induction db with
  | nil => intro k j; simp [migrateRunGo]
  | cons d rest ih =>
    intro k j
    rcases j with _ | j
    · by_cases hf : matchesMigrationFilter d
      · by_cases hk : k < maxD <;>
          simp [migrateRunGo, hf, hk, countMatching]
      · simp [migrateRunGo, hf, countMatching]
    · have htake : (d :: rest).take (j + 1) = d :: rest.take j := rfl
      have hgc : (d :: rest)[j + 1]? = rest[j]? := by simp
      by_cases hf : matchesMigrationFilter d
      · have hcnt : countMatching (d :: rest.take j) = 1 + countMatching (rest.take j) := by
          simp only [countMatching, List.filter_cons, hf, if_true, List.length_cons]
          omega
        by_cases hk : k < maxD
        · have hl : (migrateRunGo embed now bs maxD k (d :: rest))[j + 1]?
              = (migrateRunGo embed now bs maxD (k + 1) rest)[j]? := by
            simp [migrateRunGo, hf, hk]
          rw [hl, ih (k + 1) j, htake, hcnt, hgc]
          have harith : k + 1 + countMatching (rest.take j)
              = k + (1 + countMatching (rest.take j)) := by omega
          rw [harith]
        · have hl : (migrateRunGo embed now bs maxD k (d :: rest))[j + 1]?
              = (migrateRunGo embed now bs maxD k rest)[j]? := by
            simp [migrateRunGo, hf, hk]
          rw [hl, ih k j, htake, hcnt, hgc]
          rcases hrest : rest[j]? with _ | d'
          · rfl
          · have hn1 : ¬ (matchesMigrationFilter d'
                ∧ k + countMatching (rest.take j) < maxD) := by
              rintro ⟨_, h2⟩
              omega
            have hn2 : ¬ (matchesMigrationFilter d'
                ∧ k + (1 + countMatching (rest.take j)) < maxD) := by
              rintro ⟨_, h2⟩
              omega
            simp only [Option.map_some', if_neg hn1, if_neg hn2]
      · have hcnt : countMatching (d :: rest.take j) = countMatching (rest.take j) := by
          simp [countMatching, List.filter_cons, hf]
        have hl : (migrateRunGo embed now bs maxD k (d :: rest))[j + 1]?
            = (migrateRunGo embed now bs maxD k rest)[j]? := by
          simp [migrateRunGo, hf]
        rw [hl, ih k j, htake, hcnt, hgc]

/-! ## Claim C7: the `has_embedding` invariant on both write paths -/

/-- C7: provided the embedding provider only ever produces non-empty
vectors of its fixed dimensionality `dim`, every document written by
`add_solution_to_mongodb` and every document updated by the migration
driver satisfies: `search_metadata.has_embedding = true` implies a present,
non-empty embedding of length `dim` — and `has_embedding` is set to `true`
only when a non-empty embedding was obtained. -/
theorem c7_embedding_invariant (dim : ℕ) (enabled : Bool)
    (embedCall : String → Except PyErr (List ℚ)) (embedF : String → List ℚ)
    (now : ℤ) (summary script blockDiagram prereqs domain extraInfo : String)
    (d0 : SolDoc) (batchNum : ℕ)
    (h1 : ∀ t v, embedCall t = .ok v → v ≠ [] → v.length = dim)
    (h2 : ∀ t, embedF t ≠ [] → (embedF t).length = dim) :
    (∀ doc, addSolution enabled embedCall now summary script blockDiagram prereqs
        domain extraInfo = some doc →
      hasEmbeddingOf doc = true →
        ∃ e, doc.embedding = some e ∧ e ≠ [] ∧ e.length = dim) ∧
    (hasEmbeddingOf (migrateStep embedF now batchNum d0) = true →
      ∃ e, (migrateStep embedF now batchNum d0).embedding = some e
        ∧ e ≠ [] ∧ e.length = dim) := by
  constructor
  · intro doc hdoc
    unfold addSolution at hdoc
    by_cases hv1 : pyStrip summary = "" ∨ pyStrip script = "" ∨ pyStrip domain = ""
    · simp [hv1] at hdoc
    · rw [if_neg hv1] at hdoc
      by_cases hv2 : (pyStrip summary).length < 50
      · simp [hv2] at hdoc
      · rw [if_neg hv2] at hdoc
        by_cases hv3 : (pyStrip script).length < 50
        · simp [hv3] at hdoc
        · rw [if_neg hv3] at hdoc
          by_cases he : enabled
          · rcases hec : embedCall (createCombinedText domain summary prereqs
                extraInfo script) with err | e
            · simp only [he, if_true, ite_true, hec, Option.some_inj] at hdoc
              subst hdoc
              intro hemb
              simp [hasEmbeddingOf] at hemb
            · by_cases hne : e = []
              · simp only [he, if_true, ite_true, hec, hne, ne_eq,
                  not_true_eq_false, if_false, ite_false, Option.some_inj] at hdoc
                subst hdoc
                intro hemb
                simp [hasEmbeddingOf, hne] at hemb
              · simp only [he, if_true, ite_true, hec, hne, ne_eq,
                  not_false_eq_true, if_true, ite_true, Option.some_inj] at hdoc
                subst hdoc
                intro _
                exact ⟨e, by simp [hne], hne, h1 _ e hec hne⟩
          · simp only [he, if_false, ite_false, Option.some_inj] at hdoc
            subst hdoc
            intro hemb
            simp [hasEmbeddingOf] at hemb
  · intro hemb
    unfold migrateStep at hemb ⊢
    by_cases hne : embedF (combinedTextOfDoc d0) = []
    · simp [hne, hasEmbeddingOf] at hemb
    · simp only [hne, ne_eq, not_false_eq_true, if_true, ite_true]
      exact ⟨embedF (combinedTextOfDoc d0), rfl, hne, h2 _ hne⟩

/-- C7 witness: a two-dimensional provider that always succeeds, applied
to a valid solution and to a migration step on a bare legacy document. -/
theorem c7_embedding_invariant_witness :
    (∀ doc, addSolution true (fun _ => .ok [1, 2]) 0
        "This summary is certainly long enough to pass the fifty character check."
        "print('this script body is also long enough to pass the check')"
        "" "" "Finance" "" = some doc →
      hasEmbeddingOf doc = true →
        ∃ e, doc.embedding = some e ∧ e ≠ [] ∧ e.length = 2) ∧
    (hasEmbeddingOf (migrateStep (fun _ => [1, 2]) 0 1 {}) = true →
      ∃ e, (migrateStep (fun _ => [1, 2]) 0 1 {}).embedding = some e
        ∧ e ≠ [] ∧ e.length = 2) := by
  apply c7_embedding_invariant 2 true (fun _ => .ok [1, 2]) (fun _ => [1, 2]) 0
  · intro t v h hne
    simp only [Except.ok.injEq] at h
    rw [← h]
    rfl
  · intro t _
    rfl

/-! ## Claim C8: idempotence of the backfill selection -/

/-- A pathological record: `has_embedding = true` but no stored
`embedding` field. -/
def c8BadDoc : SolDoc :=
  { summary := "s", searchMeta := some { hasEmbedding := true }, embedding := none }

/-- C8 (counterexample): a record with `has_embedding = true` is NOT
necessarily excluded from the backfill selection query — the query's
third `$or` clause selects any record whose `embedding` field is absent,
and the driver then modifies it. -/
theorem c8_counterexample :
    hasEmbeddingOf c8BadDoc = true ∧
    matchesMigrationFilter c8BadDoc = true ∧
    (migrateRunDB (fun _ => [1]) 0 5 100 [c8BadDoc])[0]? ≠ some c8BadDoc := by
  refine ⟨rfl, rfl, ?_⟩
  decide

/-- C8 (amended): a record that has `search_metadata.has_embedding = true`
AND a present `embedding` field is excluded from the backfill selection
query, so any migration run — in particular a second run over a record the
first run embedded — leaves it unmodified. -/
theorem c8_migration_idempotent (embed : String → List ℚ) (now : ℤ)
    (bs maxD : ℕ) (db : List SolDoc) (j : ℕ) (d : SolDoc)
    (hd : db[j]? = some d)
    (hmeta : hasEmbeddingOf d = true) (hemb : d.embedding ≠ none) :
    matchesMigrationFilter d = false ∧
    (migrateRunDB embed now bs maxD db)[j]? = some d := by
  have hfilter : matchesMigrationFilter d = false := by
    rcases hsm : d.searchMeta with _ | m
    · simp [hasEmbeddingOf, hsm] at hmeta
    · rcases hde : d.embedding with _ | e
      · exact absurd hde hemb
      · have hm : m.hasEmbedding = true := by
          unfold hasEmbeddingOf at hmeta
          rw [hsm] at hmeta
          simpa using hmeta
        simp [matchesMigrationFilter, hasEmbeddingOf, hsm, hde, hm]
  refine ⟨hfilter, ?_⟩
  unfold migrateRunDB
  rw [migrateRunGo_getElem, hd]
  simp [hfilter]

/-- C8 witness: a successfully-embedded record (as the first migration run
or the insert path leaves it) inside a one-record collection. -/
def c8GoodDoc : SolDoc :=
  { summary := "s", embedding := some [1, 2],
    searchMeta := some { hasEmbedding := true,
                         embeddingModel := some "gemini-embedding-001" } }

/-- C8 amended-claim witness at a concrete record and run. -/
theorem c8_migration_idempotent_witness :
    matchesMigrationFilter c8GoodDoc = false ∧
    (migrateRunDB (fun _ => [1]) 0 5 100 [c8GoodDoc])[0]? = some c8GoodDoc :=
  c8_migration_idempotent (fun _ => [1]) 0 5 100 [c8GoodDoc] 0 c8GoodDoc
    rfl rfl (by decide)

/-! ## Claim C9: migration failure handling -/

/-- C9: if the embedding provider raises on every retry for record `R`
(e.g. a rate-limit error exhausting the budget of 3), then after the run
`R` carries `has_embedding = false` with the non-empty `embedding_error`
string, the run still visits every record (length preserved), and every
record's final state is exactly its own per-record processing outcome —
one record's failure never aborts the batch or the run. -/
theorem c9_migration_failure_isolated
    (oracles : String → ℕ → Except PyErr (Option (List ℚ)))
    (now : ℤ) (bs maxD : ℕ) (db : List SolDoc) (j : ℕ) (d : SolDoc)
    (hd : db[j]? = some d)
    (hsel : matchesMigrationFilter d = true)
    (hcap : countMatching (db.take j) < maxD)
    (hfail : ∀ n, ∃ e, oracles (combinedTextOfDoc d) n = .error e) :
    (migrateRunDB (fun t => generateEmbedding (oracles t) t) now bs maxD db).length
      = db.length ∧
    (migrateRunDB (fun t => generateEmbedding (oracles t) t) now bs maxD db)[j]?
      = some { d with searchMeta := some (migrationFailureMeta now) } ∧
    "Failed to generate embedding during migration" ≠ "" ∧
    (∀ i d', db[i]? = some d' →
      (migrateRunDB (fun t => generateEmbedding (oracles t) t) now bs maxD db)[i]?
        = some (if matchesMigrationFilter d' ∧ countMatching (db.take i) < maxD
            then migrateStep (fun t => generateEmbedding (oracles t) t) now
              (countMatching (db.take i) / bs + 1) d'
            else d')) := by
  have hchar : ∀ i d', db[i]? = some d' →
      (migrateRunDB (fun t => generateEmbedding (oracles t) t) now bs maxD db)[i]?
        = some (if matchesMigrationFilter d' ∧ countMatching (db.take i) < maxD
            then migrateStep (fun t => generateEmbedding (oracles t) t) now
              (countMatching (db.take i) / bs + 1) d'
            else d') := by
    intro i d' hd'
    unfold migrateRunDB
    rw [migrateRunGo_getElem, hd']
    simp
  refine ⟨migrateRunGo_length _ now bs maxD db 0, ?_, by decide, hchar⟩
  rw [hchar j d hd, if_pos ⟨hsel, hcap⟩]
  have hzero : generateEmbedding (oracles (combinedTextOfDoc d)) (combinedTextOfDoc d)
      = [] := generateEmbedding_allFail _ _ hfail
  unfold migrateStep
  simp [hzero, migrationFailureMeta]

/-- C9 witness: a one-record collection whose record lacks metadata, with
a provider that raises a rate-limit error on every attempt. -/
theorem c9_migration_failure_isolated_witness :
    (migrateRunDB (fun t => generateEmbedding
        ((fun _ _ => .error (.opFailure "429 rate limit exceeded")) t) t)
      0 5 100 [({} : SolDoc)]).length = [({} : SolDoc)].length ∧
    (migrateRunDB (fun t => generateEmbedding
        ((fun _ _ => .error (.opFailure "429 rate limit exceeded")) t) t)
      0 5 100 [({} : SolDoc)])[0]?
      = some { ({} : SolDoc) with searchMeta := some (migrationFailureMeta 0) } ∧
    "Failed to generate embedding during migration" ≠ "" ∧
    (∀ i d', [({} : SolDoc)][i]? = some d' →
      (migrateRunDB (fun t => generateEmbedding
          ((fun _ _ => .error (.opFailure "429 rate limit exceeded")) t) t)
        0 5 100 [({} : SolDoc)])[i]?
        = some (if matchesMigrationFilter d'
              ∧ countMatching ([({} : SolDoc)].take i) < 100
            then migrateStep (fun t => generateEmbedding
                ((fun _ _ => .error (.opFailure "429 rate limit exceeded")) t) t) 0
              (countMatching ([({} : SolDoc)].take i) / 5 + 1) d'
            else d')) :=
  c9_migration_failure_isolated
    (fun _ _ => .error (.opFailure "429 rate limit exceeded"))
    0 5 100 [({} : SolDoc)] 0 {} rfl rfl (by decide)
    (fun n => ⟨.opFailure "429 rate limit exceeded", rfl⟩)

end AutoGen
